import Mathlib

/-!
Verification of the menu filtering and availability-state engine of the
Lollyzz single-page restaurant menu (src/src/App.tsx).

JavaScript strings are modelled as lists of natural numbers (code points),
so that character-class reasoning (digits, whitespace, ASCII case folding)
is elementary arithmetic.  JSON values produced by JSON.parse are modelled
by an explicit inductive type, and JavaScript records (objects) by
association lists that preserve insertion order, exactly as JS objects do.
-/

namespace Lollyzz

/-- A JavaScript string: its list of code points. -/
abbrev JStr := List Nat

/-- Embed a Lean string literal as a list of code points. -/
def strLit (s : String) : JStr := s.toList.map Char.toNat

/-- The character class of the regular expression \s, which is also the set
of code points removed by String.prototype.trim (WhiteSpace plus
LineTerminator in the ECMAScript specification). -/
def isSpaceN (n : Nat) : Bool :=
  n == 9 || n == 10 || n == 11 || n == 12 || n == 13 || n == 32 ||
  n == 160 || n == 5760 || (8192 ≤ n && n ≤ 8202) || n == 8232 ||
  n == 8233 || n == 8239 || n == 8287 || n == 12288 || n == 65279

/-- The character class of the regular expression \d: the ASCII digits. -/
def isDigitN (n : Nat) : Bool := 48 ≤ n && n ≤ 57

/-- ASCII lower-casing of one code point, the effect of
String.prototype.toLowerCase on the ASCII range (the only range exercised
by this application's catalog and of the case-insensitive regexes used). -/
def lowerN (n : Nat) : Nat := if 65 ≤ n ∧ n ≤ 90 then n + 32 else n

/-- String.prototype.toLowerCase. -/
def lowerStr (l : JStr) : JStr := l.map lowerN

/-- String.prototype.trim: remove leading and trailing whitespace. -/
def jsTrim (l : JStr) : JStr :=
  ((l.dropWhile isSpaceN).reverse.dropWhile isSpaceN).reverse

/-- String.prototype.startsWith: does hay start with needle?
(needle first argument). -/
def hasPre : JStr → JStr → Bool
  | [], _ => true
  | _ :: _, [] => false
  | a :: as, b :: bs => a == b && hasPre as bs

/-- String.prototype.includes: does hay contain needle as a contiguous
substring? -/
def jsIncludes : JStr → JStr → Bool
  | [], needle => hasPre needle []
  | a :: t, needle => hasPre needle (a :: t) || jsIncludes t needle

/-- Array.prototype.join(" "). -/
def joinSpace (l : List JStr) : JStr := List.intercalate [32] l

/-- Matcher for the anchored regular expression used by
normalizeVariantName on the trimmed name, with capture group the digit
run; written with explicit takeWhile/dropWhile scans, which agree with the
regex because the digit, whitespace and quote character classes are
pairwise disjoint. -/
def matchInches (l : JStr) : Option JStr :=
  let l1 := l.dropWhile isSpaceN
  let ds := l1.takeWhile isDigitN
  let rest := (l1.dropWhile isDigitN).dropWhile isSpaceN
  if ds ≠ [] ∧ rest.take 1 = [34] ∧ (rest.drop 1).dropWhile isSpaceN = [] then
    some ds
  else none

/-- normalizeVariantName from App.tsx: trim; digit-plus-quote size markers
become "(digits) inches"; the tokens reg/med/large (case-insensitively)
become Regular/Medium/Large; anything else is returned (trimmed). -/
def normalizeVariantName (name : JStr) : JStr :=
  let n := jsTrim name
  match matchInches n with
  | some ds => ds ++ strLit " inches"
  | none =>
    if lowerStr n = strLit "reg" then strLit "Regular"
    else if lowerStr n = strLit "med" then strLit "Medium"
    else if lowerStr n = strLit "large" then strLit "Large"
    else n

/-- normalizeIndianMobile from App.tsx: strip non-digits, then accept a
10-digit number, a 91-prefixed 12-digit number, or a 0-prefixed 11-digit
number. -/
def normalizeIndianMobile (input : JStr) : Option JStr :=
  let digits := input.filter isDigitN
  if digits.length = 10 then some digits
  else if digits.length = 12 ∧ hasPre (strLit "91") digits then
    some (digits.drop 2)
  else if digits.length = 11 ∧ hasPre (strLit "0") digits then
    some (digits.drop 1)
  else none

/-- The fixed owner allow-list OWNER_MOBILES from App.tsx. -/
def OWNER_MOBILES : List JStr :=
  [strLit "9110162059", strLit "9170820279", strLit "8298357035"]

/-- Outcome of the owner-login submit handler. -/
inductive LoginResult where
  | invalidFormat
  | notAuthorized
  | success (mobile : JStr)
deriving DecidableEq

/-- The submit handler of OwnerLoginModal: normalize the typed value;
reject malformed input, reject numbers outside the allow-list, otherwise
report success with the normalized number (which is passed to onLogin). -/
def submitLogin (value : JStr) : LoginResult :=
  match normalizeIndianMobile value with
  | none => .invalidFormat
  | some normalized =>
    if normalized ∈ OWNER_MOBILES then .success normalized
    else .notAuthorized

/-- Effect of one submit on the owner session (ownerMobile state):
ownerLogin stores the normalized number on success; failed submits only
set an inline error and leave the session unchanged. -/
def sessionAfterSubmit (prev : Option JStr) (value : JStr) : Option JStr :=
  match submitLogin value with
  | .success m => some m
  | _ => prev

/-- A JSON value as returned by JSON.parse. -/
inductive Json where
  | null
  | bool (b : Bool)
  | num (n : Int)
  | str (s : JStr)
  | arr (elems : List Json)
  | obj (fields : List (JStr × Json))

/-- The availability overlay as a JavaScript record: an insertion-ordered
association list from item-identifier strings to stored values.  The
TypeScript type is Record of string to false, but the load path can put
arbitrary parsed JSON behind it, so values are modelled as Json. -/
abbrev Overlay := List (JStr × Json)

/-- Property read obj[key] on a record: the value of the entry for key. -/
def lookupOverlay : Overlay → JStr → Option Json
  | [], _ => none
  | kv :: rest, key => if kv.1 = key then some kv.2 else lookupOverlay rest key

/-- isAvailable from App.tsx: availability[itemId] !== false. -/
def isAvailableIn (av : Overlay) (itemId : JStr) : Bool :=
  match lookupOverlay av itemId with
  | some (Json.bool false) => false
  | _ => true

/-- delete obj[key] on a record: remove the entry for the key. -/
def deleteKey (itemId : JStr) : Overlay → Overlay
  | [] => []
  | kv :: rest =>
    if kv.1 = itemId then deleteKey itemId rest
    else kv :: deleteKey itemId rest

/-- obj[key] = v on a record: overwrite an existing key in place, append a
missing key at the end, exactly as JS property assignment does. -/
def assignKey (itemId : JStr) (v : Json) : Overlay → Overlay
  | [] => [(itemId, v)]
  | kv :: rest =>
    if kv.1 = itemId then (kv.1, v) :: rest
    else kv :: assignKey itemId v rest

/-- setItemAvailable from App.tsx: copy the record, then delete the key
(when marking available) or assign the sentinel false (when marking
unavailable). -/
def setAvailable (itemId : JStr) (nextAvailable : Bool) (prev : Overlay) : Overlay :=
  if nextAvailable then deleteKey itemId prev
  else assignKey itemId (Json.bool false) prev

/-- Decimal rendering of an array index, used when a parsed JSON array is
read through string keys. -/
def natKey (i : Nat) : JStr := (Nat.repr i).toList.map Char.toNat

/-- What the persisted availability value parses to at startup:
absent key, JSON.parse failure, or a parsed JSON value. -/
inductive StoredValue where
  | missing
  | unparsable
  | parsed (v : Json)

/-- The test `parsed && typeof parsed === "object"` from the availability
useState initializer: typeof yields "object" for objects, arrays and null,
and null is the only falsy value among those, so the test accepts exactly
objects and arrays. -/
def jsTruthyObject : Json → Bool
  | Json.obj _ => true
  | Json.arr _ => true
  | _ => false

/-- The record view of a parsed JSON value kept by the initializer: an
object keeps its fields; an array exposes its elements under the decimal
string keys 0, 1, 2, ... -/
def toOverlay : Json → Overlay
  | Json.obj kvs => kvs
  | Json.arr vs => vs.enum.map (fun p => (natKey p.1, p.2))
  | _ => []

/-- The availability useState initializer from App.tsx: read the persisted
value; on a missing key or a JSON.parse exception start empty; keep a
parsed value iff it is truthy and of typeof "object", else start empty. -/
def loadAvailability : StoredValue → Overlay
  | .missing => []
  | .unparsable => []
  | .parsed v => if jsTruthyObject v then toOverlay v else []

/-- A priced size/portion option of a menu item. -/
structure Variant where
  id : JStr
  name : JStr
  price : Nat

/-- A menu item of the catalog. -/
structure MenuItem where
  id : JStr
  name : JStr
  isVeg : Bool
  variants : List Variant

/-- A titled catalog section of menu items. -/
structure MenuSection where
  id : JStr
  title : JStr
  subtitle : Option JStr
  items : List MenuItem

/-- The veg / non-veg / all diet filter. -/
inductive FoodFilter where
  | ALL
  | VEG
  | NONVEG
deriving DecidableEq

/-- The UI state that feeds the filter pipeline: the search query, the
diet filter, the availability overlay, and the owner-mode flags that
decide whether unavailable items are included. -/
structure FilterState where
  query : JStr
  foodFilter : FoodFilter
  availability : Overlay
  ownerMode : Bool
  showUnavailableForOwner : Bool

/-- includeUnavailable from App.tsx: ownerMode && showUnavailableForOwner. -/
def includeUnavailable (st : FilterState) : Bool :=
  st.ownerMode && st.showUnavailableForOwner

/-- menuByAvailability from App.tsx: pass the menu through for an owner who
shows unavailable items; otherwise drop unavailable items, then drop
sections left with zero items. -/
def menuByAvailability (st : FilterState) (menu : List MenuSection) :
    List MenuSection :=
  if includeUnavailable st then menu
  else
    (menu.map (fun s =>
      { s with items := s.items.filter (fun it => isAvailableIn st.availability it.id) })).filter
      (fun s => decide (0 < s.items.length))

/-- The body of the item filter callback of baseFilteredMenu:
matchesQuery && matchesFood, with q the trimmed lower-cased query and the
haystack the item name joined with its normalized variant labels, then
lower-cased. -/
def matchesItem (st : FilterState) (it : MenuItem) : Bool :=
  (if (lowerStr (jsTrim st.query)).isEmpty then true
   else jsIncludes
      (lowerStr (joinSpace (it.name ::
        it.variants.map (fun v => normalizeVariantName v.name))))
      (lowerStr (jsTrim st.query))) &&
  (match st.foodFilter with
   | .ALL => true
   | .VEG => it.isVeg
   | .NONVEG => !it.isVeg)

/-- baseFilteredMenu from App.tsx: on top of menuByAvailability, keep an
item iff it matches the trimmed lower-cased query and the diet filter;
then drop sections left with zero items. -/
def baseFilteredMenu (st : FilterState) (menu : List MenuSection) :
    List MenuSection :=
  ((menuByAvailability st menu).map (fun s =>
    { s with items := s.items.filter (fun it => matchesItem st it) })).filter
    (fun s => decide (0 < s.items.length))

/-- filteredMenu from App.tsx: with no selected categories pass the base
result through; otherwise keep only the selected sections. -/
def filteredMenu (st : FilterState) (selectedCategoryIds : List JStr)
    (menu : List MenuSection) : List MenuSection :=
  if selectedCategoryIds.length = 0 then baseFilteredMenu st menu
  else (baseFilteredMenu st menu).filter
    (fun s => selectedCategoryIds.contains s.id)

/-- availableSectionIds from App.tsx: the identifiers of the sections that
have matching items under the base filters. -/
def availableSectionIds (st : FilterState) (menu : List MenuSection) :
    List JStr :=
  (baseFilteredMenu st menu).map (fun s => s.id)

/-- foodTypeSectionIds from App.tsx: sections of the availability-filtered
menu that contain at least one item of the selected diet type. -/
def foodTypeSectionIds (st : FilterState) (menu : List MenuSection) :
    List JStr :=
  match st.foodFilter with
  | .ALL => (menuByAvailability st menu).map (fun s => s.id)
  | .VEG =>
    ((menuByAvailability st menu).filter
      (fun s => s.items.any (fun i => i.isVeg))).map (fun s => s.id)
  | .NONVEG =>
    ((menuByAvailability st menu).filter
      (fun s => s.items.any (fun i => !i.isVeg))).map (fun s => s.id)

/-- The selection-repair useEffect from App.tsx: when the selection is
nonempty, drop every selected category identifier that is not among the
available section identifiers or not among the diet-eligible section
identifiers. -/
def repairSelection (st : FilterState) (menu : List MenuSection)
    (prev : List JStr) : List JStr :=
  if prev.length = 0 then prev
  else prev.filter (fun id =>
    (availableSectionIds st menu).contains id &&
    (foodTypeSectionIds st menu).contains id)

/-- All items of a list of sections, in display order. -/
def flatItems (menu : List MenuSection) : List MenuItem :=
  (menu.map (fun s => s.items)).flatten

/-- The availability check of the spec, stated independently of the staged
pipeline: the item is available, or the viewer is an owner who includes
unavailable items. -/
def passesAvailability (st : FilterState) (it : MenuItem) : Bool :=
  includeUnavailable st || isAvailableIn st.availability it.id

/-- The search check of the spec, stated independently of the staged
pipeline: the query is empty, or the case-folded name-plus-normalized-
variant-labels text contains the trimmed case-folded query. -/
def passesSearch (st : FilterState) (it : MenuItem) : Bool :=
  (lowerStr (jsTrim st.query)).isEmpty ||
  jsIncludes
    (lowerStr (joinSpace (it.name ::
      it.variants.map (fun v => normalizeVariantName v.name))))
    (lowerStr (jsTrim st.query))

/-- The diet check of the spec, stated independently of the staged
pipeline. -/
def passesDiet (st : FilterState) (it : MenuItem) : Bool :=
  match st.foodFilter with
  | .ALL => true
  | .VEG => it.isVeg
  | .NONVEG => !it.isVeg

/-- The digits kept by the replace-non-digits step of
normalizeIndianMobile. -/
def digitsOf (input : JStr) : JStr := input.filter isDigitN

/-- The trailing 10 code points of a digit string. -/
def lastTen (d : JStr) : JStr := d.drop (d.length - 10)

/-- The structural reading of the variant-name size regex on a trimmed
label: optional whitespace, a nonempty digit run, optional whitespace, a
double quote (code point 34), optional whitespace. -/
def InchesShape (l ds : JStr) : Prop :=
  ds ≠ [] ∧ (∀ c ∈ ds, isDigitN c = true) ∧
  ∃ pre sp post,
    (∀ c ∈ pre, isSpaceN c = true) ∧ (∀ c ∈ sp, isSpaceN c = true) ∧
    (∀ c ∈ post, isSpaceN c = true) ∧
    l = pre ++ (ds ++ (sp ++ (34 :: post)))

/-- A concrete fragment of the MENU catalog constant, used to instantiate
the universally quantified theorems at real data. -/
def menuFragment : List MenuSection :=
  [{ id := strLit "veg-main-gravy",
     title := strLit "Main Course (Veg)",
     subtitle := none,
     items :=
       [{ id := strLit "paneer-punjabi",
          name := strLit "Paneer Punjabi",
          isVeg := true,
          variants := [{ id := strLit "full", name := strLit "Full", price := 220 }] },
        { id := strLit "paneer-butter-masala",
          name := strLit "Paneer Butter Masala",
          isVeg := true,
          variants := [{ id := strLit "full", name := strLit "Full", price := 240 }] }] },
   { id := strLit "nonveg-main-gravy",
     title := strLit "Main Course (Non-Veg)",
     subtitle := none,
     items :=
       [{ id := strLit "chicken-punjabi",
          name := strLit "Chicken Punjabi",
          isVeg := false,
          variants := [{ id := strLit "full", name := strLit "Full", price := 270 }] }] }]

/-- A customer filter state with no query, no diet filter and an empty
overlay. -/
def plainState : FilterState :=
  { query := [], foodFilter := .ALL, availability := [],
    ownerMode := false, showUnavailableForOwner := false }

lemma lookupOverlay_deleteKey_self (av : Overlay) (id : JStr) :
    lookupOverlay (deleteKey id av) id = none := by
  induction av with
  | nil => rfl
  | cons kv t ih =>
    by_cases h : kv.1 = id
    · simpa [deleteKey, h] using ih
    · simp [deleteKey, h, lookupOverlay, ih]

lemma lookupOverlay_deleteKey_other (av : Overlay) (id j : JStr) (h : j ≠ id) :
    lookupOverlay (deleteKey id av) j = lookupOverlay av j := by
  induction av with
  | nil => rfl
  | cons kv t ih =>
    have hij : ¬id = j := fun e => h e.symm
    by_cases hk : kv.1 = id
    · have hj : ¬kv.1 = j := fun e => h (e ▸ hk)
      simp [deleteKey, hk, lookupOverlay, hj, hij, ih]
    · by_cases hj : kv.1 = j
      · simp [deleteKey, hk, lookupOverlay, hj, h, ih]
      · simp [deleteKey, hk, lookupOverlay, hj, ih]

lemma lookupOverlay_assignKey_self (av : Overlay) (id : JStr) (v : Json) :
    lookupOverlay (assignKey id v av) id = some v := by
  induction av with
  | nil => simp [assignKey, lookupOverlay]
  | cons kv t ih =>
    by_cases hk : kv.1 = id
    · simp [assignKey, hk, lookupOverlay]
    · simp [assignKey, hk, lookupOverlay, ih]

lemma lookupOverlay_assignKey_other (av : Overlay) (id j : JStr) (v : Json)
    (h : j ≠ id) :
    lookupOverlay (assignKey id v av) j = lookupOverlay av j := by
  induction av with
  | nil =>
    have hij : ¬id = j := fun e => h e.symm
    simp [assignKey, lookupOverlay, hij]
  | cons kv t ih =>
    have hij : ¬id = j := fun e => h e.symm
    by_cases hk : kv.1 = id
    · have hj : ¬kv.1 = j := fun e => h (e ▸ hk)
      simp [assignKey, hk, lookupOverlay, hj, hij]
    · by_cases hj : kv.1 = j
      · simp [assignKey, hk, lookupOverlay, hj, h]
      · simp [assignKey, hk, lookupOverlay, hj, ih]

lemma deleteKey_twice (av : Overlay) (id : JStr) :
    deleteKey id (deleteKey id av) = deleteKey id av := by
  induction av with
  | nil => rfl
  | cons kv t ih =>
    by_cases h : kv.1 = id
    · simpa [deleteKey, h] using ih
    · simp [deleteKey, h, ih]

lemma assignKey_twice (av : Overlay) (id : JStr) (v : Json) :
    assignKey id v (assignKey id v av) = assignKey id v av := by
  induction av with
  | nil => simp [assignKey]
  | cons kv t ih =>
    by_cases h : kv.1 = id
    · simp [assignKey, h]
    · simp [assignKey, h, ih]

/-- Claim C2: isAvailable(id) is true exactly when the overlay does not
map id to the literal value false; any absent id, and any id mapped to a
value other than false, is available. -/
theorem isAvailable_iff (av : Overlay) (id : JStr) :
    isAvailableIn av id = true ↔ lookupOverlay av id ≠ some (Json.bool false) := by
  cases hl : lookupOverlay av id with
  | none => simp [isAvailableIn, hl]
  | some v =>
    cases v with
    | null => simp [isAvailableIn, hl]
    | bool bb => cases bb <;> simp [isAvailableIn, hl]
    | num n => simp [isAvailableIn, hl]
    | str s => simp [isAvailableIn, hl]
    | arr a => simp [isAvailableIn, hl]
    | obj o => simp [isAvailableIn, hl]

/-- Claim C3, counterexample: a persisted JSON array is NOT treated as an
empty overlay: typeof [] is "object" and [] is truthy, so the initializer
keeps the array, and the stored array [false] marks the item id "0"
unavailable. -/
theorem loadAvailability_array_cex :
    loadAvailability (.parsed (Json.arr [Json.bool false])) ≠ ([] : Overlay) ∧
    isAvailableIn (loadAvailability (.parsed (Json.arr [Json.bool false])))
      (strLit "0") = false := by
  constructor
  · intro h
    have hl : (loadAvailability (.parsed (Json.arr [Json.bool false]))).length = 1 := rfl
    rw [h] at hl
    simp at hl
  · rfl

/-- Claim C3, amended: a missing or unparsable persisted value, and a
parsed null, boolean, number or string, give the empty overlay (in which
every item is available); a parsed object is kept with its fields, and a
parsed array is kept with its elements under decimal index keys. -/
theorem loadAvailability_amended :
    loadAvailability .missing = [] ∧
    loadAvailability .unparsable = [] ∧
    loadAvailability (.parsed Json.null) = [] ∧
    (∀ b, loadAvailability (.parsed (Json.bool b)) = []) ∧
    (∀ n, loadAvailability (.parsed (Json.num n)) = []) ∧
    (∀ s, loadAvailability (.parsed (Json.str s)) = []) ∧
    (∀ kvs, loadAvailability (.parsed (Json.obj kvs)) = kvs) ∧
    (∀ vs, loadAvailability (.parsed (Json.arr vs)) =
      vs.enum.map (fun p => (natKey p.1, p.2))) ∧
    (∀ id, isAvailableIn [] id = true) :=
  ⟨rfl, rfl, rfl, fun _ => rfl, fun _ => rfl, fun _ => rfl, fun _ => rfl,
   fun _ => rfl, fun _ => rfl⟩

/-- Claim C6: the category stage only narrows: the final visible section
list is a sublist of the base-filtered list, and with no selected
categories it is exactly the base-filtered list. -/
theorem filteredMenu_narrows (st : FilterState) (menu : List MenuSection)
    (sel : List JStr) :
    List.Sublist (filteredMenu st sel menu) (baseFilteredMenu st menu) ∧
    filteredMenu st [] menu = baseFilteredMenu st menu := by
  constructor
  · unfold filteredMenu
    split
    · exact List.Sublist.refl _
    · exact List.filter_sublist _
  · rfl

/-- Claim C7: setItemAvailable is idempotent; marking available removes
the overlay entry, marking unavailable stores the sentinel false, and the
true-false-true round trip leaves no entry for the id. -/
theorem setItemAvailable_spec (av : Overlay) (id : JStr) (b : Bool) :
    setAvailable id b (setAvailable id b av) = setAvailable id b av ∧
    lookupOverlay (setAvailable id true
      (setAvailable id false (setAvailable id true av))) id = none ∧
    lookupOverlay (setAvailable id true av) id = none ∧
    lookupOverlay (setAvailable id false av) id = some (Json.bool false) := by
  refine ⟨?_, ?_, ?_, ?_⟩
  · cases b with
    | true =>
      show deleteKey id (deleteKey id av) = deleteKey id av
      exact deleteKey_twice av id
    | false =>
      show assignKey id (Json.bool false) (assignKey id (Json.bool false) av) =
        assignKey id (Json.bool false) av
      exact assignKey_twice av id (Json.bool false)
  · exact lookupOverlay_deleteKey_self _ id
  · exact lookupOverlay_deleteKey_self av id
  · exact lookupOverlay_assignKey_self av id (Json.bool false)

/-- Claim C10: toggling the availability of one item never changes the
overlay entry of any other item. -/
theorem setItemAvailable_frame (av : Overlay) (id j : JStr) (b : Bool)
    (h : j ≠ id) :
    lookupOverlay (setAvailable id b av) j = lookupOverlay av j := by
  cases b with
  | true => exact lookupOverlay_deleteKey_other av id j h
  | false => exact lookupOverlay_assignKey_other av id j (Json.bool false) h

/-- Witness for claim C10 at concrete data: clearing paneer-punjabi's
override does not touch the entry of mix-veg. -/
theorem setItemAvailable_frame_witness :
    strLit "mix-veg" ≠ strLit "paneer-punjabi" ∧
    lookupOverlay
      (setAvailable (strLit "paneer-punjabi") true
        [(strLit "paneer-punjabi", Json.bool false)]) (strLit "mix-veg") =
      lookupOverlay [(strLit "paneer-punjabi", Json.bool false)] (strLit "mix-veg") :=
  ⟨by decide,
   setItemAvailable_frame [(strLit "paneer-punjabi", Json.bool false)]
     (strLit "paneer-punjabi") (strLit "mix-veg") true (by decide)⟩

lemma hasPre_iff_take (pre l : JStr) :
    hasPre pre l = true ↔ l.take pre.length = pre := by
  induction pre generalizing l with
  | nil => simp [hasPre]
  | cons a as ih =>
    cases l with
    | nil => simp [hasPre]
    | cons b bs =>
      constructor
      · intro hp
        rw [hasPre, Bool.and_eq_true, beq_iff_eq] at hp
        rw [List.length_cons, List.take_succ_cons, hp.1, (ih bs).mp hp.2]
      · intro ht
        rw [List.length_cons, List.take_succ_cons, List.cons.injEq] at ht
        rw [hasPre, Bool.and_eq_true, beq_iff_eq]
        exact ⟨ht.1.symm, (ih bs).mpr ht.2⟩

/-- Claim C8: normalizeIndianMobile accepts exactly a 10-digit form, a
91-prefixed 12-digit form, or a 0-prefixed 11-digit form of the kept
digits, yielding the trailing 10 digits, and rejects everything else;
including the concrete examples of the spec. -/
theorem normalizeIndianMobile_spec (input : JStr) :
    (normalizeIndianMobile input =
      if (digitsOf input).length = 10 ∨
         ((digitsOf input).length = 12 ∧ (digitsOf input).take 2 = strLit "91") ∨
         ((digitsOf input).length = 11 ∧ (digitsOf input).take 1 = strLit "0")
       then some (lastTen (digitsOf input)) else none) ∧
    normalizeIndianMobile (strLit "9876543210") = some (strLit "9876543210") ∧
    normalizeIndianMobile (strLit "+919876543210") = some (strLit "9876543210") ∧
    normalizeIndianMobile (strLit "919876543210") = some (strLit "9876543210") ∧
    normalizeIndianMobile (strLit "09876543210") = some (strLit "9876543210") ∧
    normalizeIndianMobile (strLit "12345") = none := by
  refine ⟨?_, by decide, by decide, by decide, by decide, by decide⟩
  have e91 : (strLit "91").length = 2 := rfl
  have e0 : (strLit "0").length = 1 := rfl
  have t91 : ∀ d : JStr, (hasPre (strLit "91") d ↔ d.take 2 = strLit "91") := by
    intro d
    rw [← e91]
    exact hasPre_iff_take (strLit "91") d
  have t0 : ∀ d : JStr, (hasPre (strLit "0") d ↔ d.take 1 = strLit "0") := by
    intro d
    rw [← e0]
    exact hasPre_iff_take (strLit "0") d
  unfold normalizeIndianMobile digitsOf lastTen
  set d := input.filter isDigitN with hd
  by_cases h10 : d.length = 10
  · rw [if_pos h10, if_pos (Or.inl h10), h10]
    norm_num
  · rw [if_neg h10]
    by_cases h12 : d.length = 12 ∧ hasPre (strLit "91") d
    · rw [if_pos h12, if_pos (Or.inr (Or.inl ⟨h12.1, (t91 d).mp h12.2⟩)), h12.1]
    · rw [if_neg h12]
      by_cases h11 : d.length = 11 ∧ hasPre (strLit "0") d
      · rw [if_pos h11, if_pos (Or.inr (Or.inr ⟨h11.1, (t0 d).mp h11.2⟩)), h11.1]
      · rw [if_neg h11, if_neg]
        rintro (h | ⟨hl, ht⟩ | ⟨hl, ht⟩)
        · exact h10 h
        · exact h12 ⟨hl, (t91 d).mpr ht⟩
        · exact h11 ⟨hl, (t0 d).mpr ht⟩

/-- Claim C9: the login submit handler fails with the invalid-format error
exactly when normalization fails, fails with the not-authorized error
exactly when the normalized number is outside the allow-list, and
otherwise succeeds with the normalized number and establishes the session;
with the concrete allow-list examples of the spec. -/
theorem ownerLogin_spec (value : JStr) :
    (submitLogin value = .invalidFormat ↔ normalizeIndianMobile value = none) ∧
    (submitLogin value = .notAuthorized ↔
      ∃ m, normalizeIndianMobile value = some m ∧ m ∉ OWNER_MOBILES) ∧
    (∀ m, submitLogin value = .success m ↔
      (normalizeIndianMobile value = some m ∧ m ∈ OWNER_MOBILES)) ∧
    (∀ prev m, submitLogin value = .success m →
      sessionAfterSubmit prev value = some m) ∧
    submitLogin (strLit "9110162059") = .success (strLit "9110162059") ∧
    submitLogin (strLit "9999999999") = .notAuthorized := by
  refine ⟨?_, ?_, ?_, ?_, by decide, by decide⟩
  · unfold submitLogin
    cases hn : normalizeIndianMobile value with
    | none => simp
    | some m0 => by_cases hm : m0 ∈ OWNER_MOBILES <;> simp [hm]
  · unfold submitLogin
    cases hn : normalizeIndianMobile value with
    | none => simp
    | some m0 => by_cases hm : m0 ∈ OWNER_MOBILES <;> simp [hm]
  · intro m
    unfold submitLogin
    cases hn : normalizeIndianMobile value with
    | none => simp
    | some m0 =>
      by_cases hm : m0 ∈ OWNER_MOBILES <;> simp [hm]
      · rintro rfl; exact hm
      · rintro rfl; exact hm
  · intro prev m hsucc
    unfold sessionAfterSubmit
    rw [hsucc]

/-- Witness for claim C9 at concrete data: submitting the allow-listed
number 9110162059 establishes the session. -/
theorem ownerLogin_spec_witness :
    sessionAfterSubmit none (strLit "9110162059") = some (strLit "9110162059") :=
  (ownerLogin_spec (strLit "9110162059")).2.2.2.1 none (strLit "9110162059")
    (by decide)

lemma mem_flatItems {l : List MenuSection} {a : MenuItem} :
    a ∈ flatItems l ↔ ∃ s, s ∈ l ∧ a ∈ s.items := by
  simp [flatItems]

lemma mem_flatItems_stage (p : MenuItem → Bool) (l : List MenuSection)
    (a : MenuItem) :
    a ∈ flatItems ((l.map (fun s => { s with items := s.items.filter p })).filter
      (fun s => decide (0 < s.items.length))) ↔
    a ∈ flatItems l ∧ p a = true := by
  rw [mem_flatItems, mem_flatItems]
  constructor
  · rintro ⟨s, hs, ha⟩
    rw [List.mem_filter] at hs
    obtain ⟨hs1, _⟩ := hs
    rw [List.mem_map] at hs1
    obtain ⟨s0, hs0, rfl⟩ := hs1
    dsimp only at ha
    rw [List.mem_filter] at ha
    exact ⟨⟨s0, hs0, ha.1⟩, ha.2⟩
  · rintro ⟨⟨s, hs, ha⟩, hp⟩
    have hmem : a ∈ s.items.filter p := List.mem_filter.mpr ⟨ha, hp⟩
    refine ⟨{ s with items := s.items.filter p }, ?_, hmem⟩
    rw [List.mem_filter]
    refine ⟨List.mem_map.mpr ⟨s, hs, rfl⟩, ?_⟩
    have hpos : 0 < (s.items.filter p).length :=
      List.length_pos.mpr (List.ne_nil_of_mem hmem)
    simpa using hpos

lemma matchesItem_eq (st : FilterState) (it : MenuItem) :
    matchesItem st it = (passesSearch st it && passesDiet st it) := by
  unfold matchesItem passesSearch passesDiet
  cases hq : (lowerStr (jsTrim st.query)).isEmpty <;> simp [hq]

/-- Claim C1: an item is in the base-filtered result exactly when it is a
catalog item that independently passes the availability check, the search
check and the diet check; the staged evaluation is conjunctive and hence
order-independent. -/
theorem baseFilteredMenu_conjunctive (st : FilterState)
    (menu : List MenuSection) (it : MenuItem) :
    it ∈ flatItems (baseFilteredMenu st menu) ↔
      (it ∈ flatItems menu ∧ passesAvailability st it = true ∧
       passesSearch st it = true ∧ passesDiet st it = true) := by
  unfold baseFilteredMenu
  rw [mem_flatItems_stage]
  simp only [matchesItem_eq, Bool.and_eq_true]
  unfold menuByAvailability passesAvailability
  by_cases hinc : includeUnavailable st = true
  · rw [if_pos hinc, hinc]
    simp [and_assoc]
  · have hinc' : includeUnavailable st = false := by
      cases hval : includeUnavailable st
      · rfl
      · exact absurd hval hinc
    rw [if_neg hinc, hinc']
    rw [mem_flatItems_stage]
    simp only [Bool.false_or]
    tauto

/-- Claim C5: after the selection-repair step, every identifier still in
the selected set names a section with at least one matching item under the
base filter, and one eligible under the current diet filter; no category
is left selected while hidden. -/
theorem repairSelection_sound (st : FilterState) (menu : List MenuSection)
    (prev : List JStr) (id : JStr)
    (h : id ∈ repairSelection st menu prev) :
    (∃ s, s ∈ baseFilteredMenu st menu ∧ s.id = id ∧ s.items ≠ []) ∧
    id ∈ foodTypeSectionIds st menu := by
  unfold repairSelection at h
  by_cases hlen : prev.length = 0
  · rw [if_pos hlen] at h
    rw [List.length_eq_zero] at hlen
    subst hlen
    exact absurd h (List.not_mem_nil id)
  · rw [if_neg hlen] at h
    rw [List.mem_filter, Bool.and_eq_true] at h
    obtain ⟨hprev, h1, h2⟩ := h
    have h1m : id ∈ availableSectionIds st menu :=
      List.mem_of_elem_eq_true h1
    have h2m : id ∈ foodTypeSectionIds st menu :=
      List.mem_of_elem_eq_true h2
    unfold availableSectionIds at h1m
    rw [List.mem_map] at h1m
    obtain ⟨s, hsmem, hsid⟩ := h1m
    have hne : s.items ≠ [] := by
      unfold baseFilteredMenu at hsmem
      rw [List.mem_filter] at hsmem
      have hpos : 0 < s.items.length := of_decide_eq_true hsmem.2
      exact List.length_pos.mp hpos
    exact ⟨⟨s, hsmem, hsid, hne⟩, h2m⟩

/-- Witness for claim C5 at concrete data: with no filters active, the
selected category veg-main-gravy survives repair and is both available and
diet-eligible. -/
theorem repairSelection_sound_witness :
    strLit "veg-main-gravy" ∈
      repairSelection plainState menuFragment [strLit "veg-main-gravy"] ∧
    ((∃ s, s ∈ baseFilteredMenu plainState menuFragment ∧
        s.id = strLit "veg-main-gravy" ∧ s.items ≠ []) ∧
     strLit "veg-main-gravy" ∈ foodTypeSectionIds plainState menuFragment) :=
  ⟨by decide,
   repairSelection_sound plainState menuFragment [strLit "veg-main-gravy"]
     (strLit "veg-main-gravy") (by decide)⟩

lemma space_not_digit {n : Nat} (h : isSpaceN n = true) : isDigitN n = false := by
  simp [isSpaceN] at h
  simp [isDigitN]
  omega

lemma digit_not_space {n : Nat} (h : isDigitN n = true) : isSpaceN n = false := by
  cases hs : isSpaceN n with
  | false => rfl
  | true => rw [space_not_digit hs] at h; exact absurd h (by simp)

lemma lowerN_digit (n : Nat) : isDigitN (lowerN n) = isDigitN n := by
  unfold lowerN
  split
  · rename_i h
    have a1 : isDigitN (n + 32) = false := by simp [isDigitN]; omega
    have a2 : isDigitN n = false := by simp [isDigitN]; omega
    rw [a1, a2]
  · rfl

lemma lowerN_space (n : Nat) : isSpaceN (lowerN n) = isSpaceN n := by
  unfold lowerN
  split
  · rename_i h
    have a1 : isSpaceN (n + 32) = false := by simp [isSpaceN]; omega
    have a2 : isSpaceN n = false := by simp [isSpaceN]; omega
    rw [a1, a2]
  · rfl

lemma dropWhile_append_all {α : Type} (p : α → Bool) (l r : List α)
    (h : ∀ c ∈ l, p c = true) :
    (l ++ r).dropWhile p = r.dropWhile p := by
  induction l with
  | nil => rfl
  | cons a t ih =>
    rw [List.cons_append, List.dropWhile_cons_of_pos (h a (by simp))]
    exact ih (fun c hc => h c (by simp [hc]))

lemma takeWhile_append_all {α : Type} (p : α → Bool) (l r : List α)
    (h : ∀ c ∈ l, p c = true) :
    (l ++ r).takeWhile p = l ++ r.takeWhile p := by
  induction l with
  | nil => rfl
  | cons a t ih =>
    rw [List.cons_append, List.takeWhile_cons_of_pos (h a (by simp)),
      ih (fun c hc => h c (by simp [hc])), List.cons_append]

lemma take_one_cons {α : Type} {l : List α} {a : α} (h : l.take 1 = [a]) :
    l = a :: l.drop 1 := by
  cases l with
  | nil => simp at h
  | cons b t =>
    simp at h
    rw [h]
    simp

lemma matchInches_some_iff (l ds : JStr) :
    matchInches l = some ds ↔ InchesShape l ds := by
  constructor
  · intro h
    simp only [matchInches] at h
    split at h
    case isTrue hcond =>
      obtain ⟨hne, htake, hdrop⟩ := hcond
      rw [Option.some.injEq] at h
      subst h
      refine ⟨hne, fun c hc => List.mem_takeWhile_imp hc,
        l.takeWhile isSpaceN,
        ((l.dropWhile isSpaceN).dropWhile isDigitN).takeWhile isSpaceN,
        (((l.dropWhile isSpaceN).dropWhile isDigitN).dropWhile isSpaceN).drop 1,
        fun c hc => List.mem_takeWhile_imp hc,
        fun c hc => List.mem_takeWhile_imp hc,
        fun c hc => List.dropWhile_eq_nil_iff.mp hdrop c hc, ?_⟩
      conv_lhs => rw [← List.takeWhile_append_dropWhile isSpaceN l]
      congr 1
      conv_lhs =>
        rw [← List.takeWhile_append_dropWhile isDigitN (l.dropWhile isSpaceN)]
      congr 1
      conv_lhs =>
        rw [← List.takeWhile_append_dropWhile isSpaceN
          ((l.dropWhile isSpaceN).dropWhile isDigitN)]
      congr 1
      exact take_one_cons htake
    case isFalse =>
      exact absurd h (by simp)
  · rintro ⟨hne, hdig, pre, sp, post, hpre, hsp, hpost, rfl⟩
    obtain ⟨d0, ds', rfl⟩ : ∃ d0 ds', ds = d0 :: ds' := by
      cases ds with
      | nil => exact absurd rfl hne
      | cons d0 ds' => exact ⟨d0, ds', rfl⟩
    have hd0 : isDigitN d0 = true := hdig d0 (by simp)
    have hd0s : ¬isSpaceN d0 = true := by rw [digit_not_space hd0]; simp
    have e1 : ((pre ++ ((d0 :: ds') ++ (sp ++ (34 :: post)))).dropWhile isSpaceN)
        = (d0 :: ds') ++ (sp ++ (34 :: post)) := by
      rw [dropWhile_append_all isSpaceN pre _ hpre, List.cons_append,
        List.dropWhile_cons_of_neg hd0s]
    have etail : ∀ r : JStr, (sp ++ (34 :: post)).takeWhile isDigitN = [] ∧
        (sp ++ (34 :: post)).dropWhile isDigitN = sp ++ (34 :: post) := by
      intro r
      cases sp with
      | nil =>
        constructor
        · rw [List.nil_append,
            List.takeWhile_cons_of_neg (by simp [isDigitN])]
        · rw [List.nil_append,
            List.dropWhile_cons_of_neg (by simp [isDigitN])]
      | cons s0 sp' =>
        have hs0 : isSpaceN s0 = true := hsp s0 (by simp)
        have hs0d : ¬isDigitN s0 = true := by rw [space_not_digit hs0]; simp
        constructor
        · rw [List.cons_append, List.takeWhile_cons_of_neg hs0d]
        · rw [List.cons_append, List.dropWhile_cons_of_neg hs0d]
    have e2 : (((d0 :: ds') ++ (sp ++ (34 :: post))).takeWhile isDigitN)
        = d0 :: ds' := by
      rw [takeWhile_append_all isDigitN _ _ hdig, (etail []).1, List.append_nil]
    have e3 : (((d0 :: ds') ++ (sp ++ (34 :: post))).dropWhile isDigitN)
        = sp ++ (34 :: post) := by
      rw [dropWhile_append_all isDigitN _ _ hdig, (etail []).2]
    have e4 : ((sp ++ (34 :: post)).dropWhile isSpaceN) = 34 :: post := by
      rw [dropWhile_append_all isSpaceN sp _ hsp,
        List.dropWhile_cons_of_neg (by simp [isSpaceN])]
    simp only [matchInches, e1, e2, e3, e4]
    rw [if_pos]
    refine ⟨by simp, by simp, ?_⟩
    simp only [List.drop_succ_cons, List.drop_zero]
    exact List.dropWhile_eq_nil_iff.mpr hpost

lemma matchInches_none_head (a : Nat) (t : JStr) (hd : isDigitN a = false)
    (hs : isSpaceN a = false) : matchInches (a :: t) = none := by
  have e1 : (a :: t).dropWhile isSpaceN = a :: t :=
    List.dropWhile_cons_of_neg (by rw [hs]; simp)
  have e2 : (a :: t).takeWhile isDigitN = [] :=
    List.takeWhile_cons_of_neg (by rw [hd]; simp)
  simp only [matchInches, e1, e2]
  simp

lemma lowerStr_cons_shape {l : JStr} {b : Nat} {r : JStr}
    (h : lowerStr l = b :: r) :
    ∃ a t, l = a :: t ∧ lowerN a = b ∧ lowerStr t = r := by
  cases l with
  | nil => simp [lowerStr] at h
  | cons a t =>
    rw [lowerStr, List.map_cons, List.cons.injEq] at h
    exact ⟨a, t, rfl, h.1, h.2⟩

lemma matchInches_none_of_lower {s : JStr} {b : Nat} {r : JStr}
    (hlow : lowerStr s = b :: r) (hd : isDigitN b = false)
    (hs : isSpaceN b = false) : matchInches s = none := by
  obtain ⟨a, t, rfl, ha, _⟩ := lowerStr_cons_shape hlow
  refine matchInches_none_head a t ?_ ?_
  · rw [← lowerN_digit, ha, hd]
  · rw [← lowerN_space, ha, hs]

/-- Claim C4, amended: normalizeVariantName first trims its input; a
trimmed label of optional whitespace, digits, optional whitespace and a
closing double quote maps to the digits followed by " inches"; a trimmed
label spelling reg, med or large case-insensitively maps to Regular,
Medium or Large; every other input maps to its trimmed form. -/
theorem normalizeVariantName_spec (s : JStr) :
    (∀ ds, InchesShape (jsTrim s) ds →
      normalizeVariantName s = ds ++ strLit " inches") ∧
    (lowerStr (jsTrim s) = strLit "reg" →
      normalizeVariantName s = strLit "Regular") ∧
    (lowerStr (jsTrim s) = strLit "med" →
      normalizeVariantName s = strLit "Medium") ∧
    (lowerStr (jsTrim s) = strLit "large" →
      normalizeVariantName s = strLit "Large") ∧
    ((∀ ds, ¬InchesShape (jsTrim s) ds) →
      lowerStr (jsTrim s) ≠ strLit "reg" →
      lowerStr (jsTrim s) ≠ strLit "med" →
      lowerStr (jsTrim s) ≠ strLit "large" →
      normalizeVariantName s = jsTrim s) := by
  refine ⟨?_, ?_, ?_, ?_, ?_⟩
  · intro ds hsh
    have hm : matchInches (jsTrim s) = some ds :=
      (matchInches_some_iff (jsTrim s) ds).mpr hsh
    simp [normalizeVariantName, hm]
  · intro hlow
    have hnone : matchInches (jsTrim s) = none := by
      have h2 : lowerStr (jsTrim s) = 114 :: strLit "eg" := by
        rw [hlow]; rfl
      exact matchInches_none_of_lower h2 rfl rfl
    simp [normalizeVariantName, hnone, hlow]
  · intro hlow
    have hnone : matchInches (jsTrim s) = none := by
      have h2 : lowerStr (jsTrim s) = 109 :: strLit "ed" := by
        rw [hlow]; rfl
      exact matchInches_none_of_lower h2 rfl rfl
    simp [normalizeVariantName, hnone, hlow,
      show strLit "med" ≠ strLit "reg" from by decide]
  · intro hlow
    have hnone : matchInches (jsTrim s) = none := by
      have h2 : lowerStr (jsTrim s) = 108 :: strLit "arge" := by
        rw [hlow]; rfl
      exact matchInches_none_of_lower h2 rfl rfl
    simp [normalizeVariantName, hnone, hlow,
      show strLit "large" ≠ strLit "reg" from by decide,
      show strLit "large" ≠ strLit "med" from by decide]
  · intro hns h1 h2 h3
    have hnone : matchInches (jsTrim s) = none := by
      cases hmv : matchInches (jsTrim s) with
      | none => rfl
      | some d =>
        exact absurd ((matchInches_some_iff (jsTrim s) d).mp hmv) (hns d)
    simp [normalizeVariantName, hnone, h1, h2, h3]

/-- Claim C4, counterexample: the input " 7 \" " is neither
digits-followed-by-a-quote nor reg/med/large, so per the claim it should
be returned unchanged, yet the code trims it, tolerates the inner space
and returns "7 inches"; likewise " x " is returned trimmed, not
unchanged. -/
theorem normalizeVariantName_cex :
    normalizeVariantName (strLit " 7 \" ") = strLit "7 inches" ∧
    strLit "7 inches" ≠ strLit " 7 \" " ∧
    normalizeVariantName (strLit " x ") = strLit "x" ∧
    strLit "x" ≠ strLit " x " := by
  refine ⟨by decide, by decide, by decide, by decide⟩

/-- Witness for claim C4 at concrete data: one input for each branch of
the amended claim. -/
theorem normalizeVariantName_spec_witness :
    normalizeVariantName (strLit "10\"") = strLit "10" ++ strLit " inches" ∧
    normalizeVariantName (strLit "REG") = strLit "Regular" ∧
    normalizeVariantName (strLit "Med") = strLit "Medium" ∧
    normalizeVariantName (strLit "LARGE") = strLit "Large" ∧
    normalizeVariantName (strLit "Half") = strLit "Half" := by
  refine ⟨?_, ?_, ?_, ?_, ?_⟩
  · exact (normalizeVariantName_spec (strLit "10\"")).1 (strLit "10")
      ⟨by decide, by decide, [], [], [], by decide, by decide, by decide,
        by decide⟩
  · exact (normalizeVariantName_spec (strLit "REG")).2.1 (by decide)
  · exact (normalizeVariantName_spec (strLit "Med")).2.2.1 (by decide)
  · exact (normalizeVariantName_spec (strLit "LARGE")).2.2.2.1 (by decide)
  · have hns : ∀ ds, ¬InchesShape (jsTrim (strLit "Half")) ds := by
      intro ds hsh
      have hm : matchInches (jsTrim (strLit "Half")) = some ds :=
        (matchInches_some_iff (jsTrim (strLit "Half")) ds).mpr hsh
      rw [show matchInches (jsTrim (strLit "Half")) = none from by decide] at hm
      exact Option.noConfusion hm
    have h := (normalizeVariantName_spec (strLit "Half")).2.2.2.2 hns
      (by decide) (by decide) (by decide)
    rw [h]
    decide

end Lollyzz
